/-
Verification of the static-analysis core of `build_uml_diagram.py`.

The Python AST fragment relevant to the extractors is embedded shallowly:
statements that the visitor inspects are modelled by constructors, every
other statement kind collapses to `Stmt.other` carrying its nested
statement lists (expressions never contain statement nodes, so they are
not modelled).  Results of `ast.unparse` wrapped in try/except are
modelled as `Option String` values (`none` = the call raised), since the
code only ever consumes the resulting text.  Python `set`s are modelled
as insertion lists without duplicates (`addName`), Python `dict`s as
association lists with insert-or-replace (`insertDict`), and Python
`sorted` as `List.insertionSort` (both are stable sorts with the same
comparator, hence produce identical output).
-/
import Mathlib

namespace BuildUml

/-- The `.value` expression of an `ast.Attribute` assignment target; the
visitor only ever checks whether it is `ast.Name` and reads its `.id`. -/
inductive TVal where
  | name (id : String)
  | other
deriving DecidableEq

/-- An assignment target: `ast.Name`, `ast.Attribute`, or anything else
(tuples, subscripts, ...), which the visitor ignores. -/
inductive Target where
  | name (id : String)
  | attr (value : TVal) (a : String)
  | other
deriving DecidableEq

/-- One entry of `ast.arguments.args` (also of `posonlyargs`/`kwonlyargs`):
the parameter name and, when an annotation is present, the result of the
guarded `ast.unparse` call (`some none` = annotation present but
`ast.unparse` raised). -/
structure Arg where
  arg : String
  annot : Option (Option String)
deriving DecidableEq

/-- Model of `ast.arguments`: all parameter groups of a callable.  Default-value
expressions are never read by the tool and are not modelled. -/
structure Arguments where
  posonlyargs : List Arg
  args : List Arg
  vararg : Option Arg
  kwonlyargs : List Arg
  kwarg : Option Arg
deriving DecidableEq

/-- Python statements, restricted to what the two extractors inspect.
`assign` keeps only the target list (the assigned value expression is
never read and contains no statements); `functionDef` keeps name,
arguments, body, decorator list and return annotation, the latter two as
guarded `ast.unparse` results; `other` stands for any other statement and
carries its nested statement blocks (e.g. the body/orelse of `ast.If`) so
that the deep traversals reach them. -/
inductive Stmt where
  | assign (targets : List Target)
  | annAssign (target : Target)
  | functionDef (name : String) (args : Arguments) (body : List Stmt)
      (decorator_list : List (Option String)) (returns : Option (Option String))
  | classDef (name : String) (body : List Stmt)
  | other (children : List Stmt)

/-- Value stored in `methods[name]` / `private_methods[name]`: rendered parameter
list and rendered return type (empty string when absent). -/
structure MethodInfo where
  params : List String
  ret : String
deriving DecidableEq

/-- The per-class record built by `UMLClassVisitor.visit_ClassDef`
(attribute lists already sorted, as stored on line 104-109). -/
structure ClassData where
  attributes : List String
  private_attributes : List String
  methods : List (String × MethodInfo)
  private_methods : List (String × MethodInfo)
deriving DecidableEq

/-- Python `set.add`: append the element unless already present. -/
def addName (l : List String) (x : String) : List String :=
  if x ∈ l then l else l ++ [x]

/-- Python `d[k] = v` on a dict modelled as an association list: replace
in place when the key exists, append otherwise. -/
def insertDict {β : Type} (d : List (String × β)) (k : String) (v : β) :
    List (String × β) :=
  if d.any (fun p => p.1 = k) then
    d.map (fun p => if p.1 = k then (k, v) else p)
  else d ++ [(k, v)]

/-- Keys of a dict modelled as an association list. -/
def dictKeys {β : Type} (d : List (String × β)) : List String :=
  d.map Prod.fst

/-- Python `d[k]` lookup on a dict modelled as an association list. -/
def lookupDict {β : Type} (d : List (String × β)) (k : String) : Option β :=
  (d.find? (fun p => p.1 = k)).map Prod.snd

/-- Lexicographic comparison of two character sequences by code point:
the order Python uses to compare `str` values (also the order of the Lean
`String` instances, restated over `List Char` so that it evaluates). -/
def charListLe : List Char → List Char → Bool
  | [], _ => true
  | _ :: _, [] => false
  | a :: as, b :: bs =>
      if a.val.toNat < b.val.toNat then true
      else if b.val.toNat < a.val.toNat then false
      else charListLe as bs

/-- Python string comparison `s <= t` (by code points). -/
def strLe (s t : String) : Prop :=
  charListLe s.data t.data = true

instance decStrLe : DecidableRel strLe :=
  fun s t => inferInstanceAs (Decidable (charListLe s.data t.data = true))

/-- Python `sorted` on strings (stable comparison-sort). -/
def sortStrings (l : List String) : List String :=
  l.insertionSort strLe

/-- The visibility predicate used at every classification site:
`name.startswith` with the underscore marker: the character sequence
`_` is a prefix of the characters of the name. -/
def isPrivate (s : String) : Bool :=
  "_".data.isPrefixOf s.data

/-- The dunder test of line 52: the method name both starts and ends
with the double underscore marker. -/
def isDunder (s : String) : Bool :=
  "__".data.isPrefixOf s.data && "__".data.isSuffixOf s.data

/-- Guarded `ast.unparse` consumption: absent annotation and raised
`ast.unparse` both yield the empty string (lines 60-66, 73-79). -/
def renderOpt : Option (Option String) → String
  | none => ""
  | some none => ""
  | some (some s) => s

/-- One rendered parameter (lines 67-70): `name: Type` when annotation
text is non-empty, else the bare name. -/
def paramEntry (a : Arg) : String :=
  if renderOpt a.annot ≠ "" then a.arg ++ ": " ++ renderOpt a.annot else a.arg

/-- Parameter list of a method (lines 56-70): iterate only
`stmt.args.args`, skipping any parameter named `self`. -/
def buildMethodParams (a : Arguments) : List String :=
  a.args.filterMap (fun g => if g.arg = "self" then none else some (paramEntry g))

/-- Parameter list of a module-level function (lines 228-240): iterate
only `node.args.args`, no receiver to skip. -/
def buildFunctionParams (a : Arguments) : List String :=
  a.args.map paramEntry

/-- State of the two attribute sets while a class body is processed. -/
structure AttrSets where
  attributes : List String
  private_attributes : List String
deriving DecidableEq

/-- Lines 34-37 / 41-44: classify one bare name into the public or the
private attribute set. -/
def classifyAttr (s : AttrSets) (n : String) : AttrSets :=
  if isPrivate n then { s with private_attributes := addName s.private_attributes n }
  else { s with attributes := addName s.attributes n }

/-- First pass over the class body (lines 29-44): class-level `ast.Assign`
with `ast.Name` targets and `ast.AnnAssign` with an `ast.Name` target. -/
def classBodyAttrStep (s : AttrSets) : Stmt → AttrSets
  | .assign targets =>
      targets.foldl (fun s t =>
        match t with
        | .name n => classifyAttr s n
        | _ => s) s
  | .annAssign t =>
      match t with
      | .name n => classifyAttr s n
      | _ => s
  | _ => s

mutual

/-- Names assigned through `self.<attr> = ...` found by `ast.walk` over a
statement (lines 93-98): every `ast.Assign` at any nesting depth whose
target is an `ast.Attribute` over the name `self`. -/
def selfAssignNamesStmt : Stmt → List String
  | .assign targets =>
      targets.filterMap (fun t =>
        match t with
        | .attr (.name v) a => if v = "self" then some a else none
        | _ => none)
  | .annAssign _ => []
  | .functionDef _ _ body _ _ => selfAssignNamesList body
  | .classDef _ body => selfAssignNamesList body
  | .other children => selfAssignNamesList children

/-- The `ast.walk` traversal over a statement list, collecting `self` attribute
assignments in order. -/
def selfAssignNamesList : List Stmt → List String
  | [] => []
  | s :: rest => selfAssignNamesStmt s ++ selfAssignNamesList rest

end

/-- Invariant of the attribute sets: every name in the public set fails
the visibility test and every name in the private set passes it (the
partition property every classification site maintains). -/
def GoodSets (s : AttrSets) : Prop :=
  (∀ x ∈ s.attributes, isPrivate x = false) ∧
    (∀ x ∈ s.private_attributes, isPrivate x = true)

/-- State threaded through the second pass over the class body
(lines 47-102): the attribute sets plus both method maps. -/
structure MethodState where
  attrs : AttrSets
  methods : List (String × MethodInfo)
  private_methods : List (String × MethodInfo)
deriving DecidableEq

/-- Second pass over one class-body statement (lines 47-102): record a
`FunctionDef` unless its name is dunder-shaped; classify it by the
visibility of its name; for a recorded `__init__`, also fold in the
`self` attribute assignments found by walking its body.  (The `__init__`
branch is reproduced exactly where the source has it: after the dunder
skip, which makes it unreachable.) -/
def methodStep (st : MethodState) : Stmt → MethodState
  | .functionDef mname margs mbody _ mrets =>
      if isDunder mname then st
      else
        let info : MethodInfo :=
          { params := buildMethodParams margs, ret := renderOpt mrets }
        let st :=
          if isPrivate mname then
            { st with private_methods := insertDict st.private_methods mname info }
          else { st with methods := insertDict st.methods mname info }
        if mname = "__init__" then
          { st with attrs := (selfAssignNamesList mbody).foldl classifyAttr st.attrs }
        else st
  | _ => st

/-- Core of `UMLClassVisitor.visit_ClassDef`, minus the traversal bookkeeping:
both passes over the immediate class body, then the record stored on
lines 104-109 (attribute sets sorted). -/
def processClassDef (body : List Stmt) : ClassData :=
  let s1 := body.foldl classBodyAttrStep { attributes := [], private_attributes := [] }
  let st := body.foldl methodStep { attrs := s1, methods := [], private_methods := [] }
  { attributes := sortStrings st.attrs.attributes
    private_attributes := sortStrings st.attrs.private_attributes
    methods := st.methods
    private_methods := st.private_methods }

/-- The dict `visitor.classes`: class name to record, insertion-ordered. -/
abbrev ClassDict := List (String × ClassData)

mutual

/-- The `ast.NodeVisitor` dispatch on one statement: a `ClassDef` runs
`visit_ClassDef` (store the record, then `generic_visit` into the body);
every other statement is traversed by the default `generic_visit`, so
nested scopes are still searched for classes. -/
def visitStmt (acc : ClassDict) : Stmt → ClassDict
  | .classDef cname body => visitStmts (insertDict acc cname (processClassDef body)) body
  | .functionDef _ _ body _ _ => visitStmts acc body
  | .other children => visitStmts acc children
  | _ => acc

/-- The `generic_visit` traversal over a statement list, threading `visitor.classes`. -/
def visitStmts (acc : ClassDict) : List Stmt → ClassDict
  | [] => acc
  | s :: rest => visitStmts (visitStmt acc s) rest

end

/-- The call `visitor.visit(tree)` on a parsed module body. -/
def umlParse (moduleBody : List Stmt) : ClassDict :=
  visitStmts [] moduleBody

/-- Model of `parse_python_file` (lines 112-123).  Reading and `ast.parse` are
modelled by the `Except` argument (`error e` = the try block raised with
message `e`); the returned list carries what the except branch prints. -/
def parse_python_file (filepath : String) (parsed : Except String (List Stmt)) :
    ClassDict × List String :=
  match parsed with
  | .error e => ([], ["Error parsing " ++ filepath ++ ": " ++ e])
  | .ok tree => (umlParse tree, [])

/-- One element of a `packages[pkg]` list (lines 154-158). -/
structure ClassEntry where
  class_name : String
  data : ClassData
  module : String
deriving DecidableEq

/-- The `packages` dict: package name to list of class entries, insertion-ordered. -/
abbrev PkgDict := List (String × List ClassEntry)

/-- Lines 149-158: create the package key if absent, then append the
entries of the file to its list. -/
def appendEntries (pkgs : PkgDict) (pkg : String) (es : List ClassEntry) : PkgDict :=
  if pkgs.any (fun p => p.1 = pkg) then
    pkgs.map (fun p => if p.1 = pkg then (p.1, p.2 ++ es) else p)
  else pkgs ++ [(pkg, es)]

/-- One discovered `.py` file as the directory walk hands it to the
parsers: its path, the package name computed for its directory, its
module name (file name without extension), and the outcome of reading
and parsing its text. -/
structure PFile where
  path : String
  package : String
  module : String
  parsed : Except String (List Stmt)

/-- The items of `file_classes` turned into package-list entries (lines 153-158). -/
def entriesOfClasses (module : String) (cs : ClassDict) : List ClassEntry :=
  cs.map (fun p => { class_name := p.1, data := p.2, module := module })

/-- Body of the `parse_directory` loop for one file, also accumulating
the error lines printed by `parse_python_file`. -/
def parse_directory_step (acc : PkgDict × List String) (f : PFile) :
    PkgDict × List String :=
  let r := parse_python_file f.path f.parsed
  let acc1 :=
    if r.1.isEmpty then acc.1
    else appendEntries acc.1 f.package (entriesOfClasses f.module r.1)
  (acc1, acc.2 ++ r.2)

/-- Model of `parse_directory` (lines 135-159) over the file sequence of the walk. -/
def parse_directory (files : List PFile) : PkgDict × List String :=
  files.foldl parse_directory_step ([], [])

/-- The multiplicity of a class name in a package, that is `Counter(entry["class_name"] for entry in class_entries)[n]`. -/
def countName (entries : List ClassEntry) (n : String) : Nat :=
  (entries.filter (fun e => e.class_name = n)).length

/-- Display-name rule of lines 178-183: append the module in parentheses
exactly when the class name occurs more than once in its package. -/
def display_name (entries : List ClassEntry) (e : ClassEntry) : String :=
  if 1 < countName entries e.class_name then
    e.class_name ++ " (" ++ e.module ++ ")"
  else e.class_name

/-- One method line of the class block (lines 190-201). -/
def methodLine (glyph : String) (m : String) (info : MethodInfo) : String :=
  let param_str := String.intercalate ", " info.params
  if info.ret ≠ "" then
    "    " ++ glyph ++ " " ++ m ++ "(" ++ param_str ++ ") : " ++ info.ret
  else "    " ++ glyph ++ " " ++ m ++ "(" ++ param_str ++ ")"

/-- One class block of the diagram (lines 185-202). -/
def classBlockLines (entries : List ClassEntry) (e : ClassEntry) : List String :=
  ("  class " ++ display_name entries e ++ " \x7b")
    :: (e.data.attributes.map (fun a => "    + " ++ a)
      ++ e.data.private_attributes.map (fun a => "    - " ++ a)
      ++ e.data.methods.map (fun p => methodLine "+" p.1 p.2)
      ++ e.data.private_methods.map (fun p => methodLine "-" p.1 p.2)
      ++ ["  \x7d"])

/-- One package block of the diagram (lines 174-203). -/
def packageLines (p : String × List ClassEntry) : List String :=
  ("package " ++ p.1 ++ " \x7b") :: (p.2.flatMap (classBlockLines p.2) ++ ["\x7d"])

/-- The fixed preamble of lines 167-173. -/
def plantumlHeader : List String :=
  ["@startuml", "skinparam pageMargin 50", "skinparam pageWidth 3000",
    "left to right direction", "direction LR"]

/-- Model of `generate_plantuml` (lines 161-205). -/
def generate_plantuml (packages : PkgDict) : String :=
  String.intercalate "\n" (plantumlHeader ++ packages.flatMap packageLines ++ ["@enduml"])

/-- Value stored in `functions[name]` by `parse_module_functions` (lines 258-262). -/
structure FuncInfo where
  params : List String
  ret : String
  decorators : List String
deriving DecidableEq

/-- Lines 249-257: each decorator is the guarded `ast.unparse` result,
appended only when its text is non-empty (a raised `ast.unparse` leaves
the empty string, which is dropped). -/
def buildDecorators (ds : List (Option String)) : List String :=
  ds.filterMap (fun d =>
    match d with
    | none => none
    | some s => if s = "" then none else some s)

/-- Loop body of `parse_module_functions` over `tree.body` (lines
225-262): only immediate `FunctionDef` statements are recorded. -/
def moduleFunctionsStep (fs : List (String × FuncInfo)) : Stmt → List (String × FuncInfo)
  | .functionDef fname fargs _ decs rets =>
      insertDict fs fname
        { params := buildFunctionParams fargs
          ret := renderOpt rets
          decorators := buildDecorators decs }
  | _ => fs

/-- Model of `parse_module_functions` (lines 211-263), with reading/parsing
modelled as in `parse_python_file`. -/
def parse_module_functions (filepath : String) (parsed : Except String (List Stmt)) :
    List (String × FuncInfo) × List String :=
  match parsed with
  | .error e => ([], ["Error parsing " ++ filepath ++ ": " ++ e])
  | .ok tree => (tree.foldl moduleFunctionsStep [], [])

/-- One element of a `modules[pkg]` list (lines 281-284). -/
structure ModuleEntry where
  module : String
  functions : List (String × FuncInfo)
deriving DecidableEq

/-- The `modules` dict: package name to list of module entries, insertion-ordered. -/
abbrev ModDict := List (String × List ModuleEntry)

/-- Lines 277-284: create the package key if absent, append the module. -/
def appendModule (mods : ModDict) (pkg : String) (e : ModuleEntry) : ModDict :=
  if mods.any (fun p => p.1 = pkg) then
    mods.map (fun p => if p.1 = pkg then (p.1, p.2 ++ [e]) else p)
  else mods ++ [(pkg, [e])]

/-- Body of the `parse_directory_module_functions` loop for one file. -/
def parse_directory_module_functions_step (acc : ModDict × List String) (f : PFile) :
    ModDict × List String :=
  let r := parse_module_functions f.path f.parsed
  let acc1 :=
    if r.1.isEmpty then acc.1
    else appendModule acc.1 f.package { module := f.module, functions := r.1 }
  (acc1, acc.2 ++ r.2)

/-- Model of `parse_directory_module_functions` (lines 265-285). -/
def parse_directory_module_functions (files : List PFile) : ModDict × List String :=
  files.foldl parse_directory_module_functions_step ([], [])

/-- Comparison by a string key, the order used by every `sorted` call of
the doc renderer (`sorted` on dict items with distinct keys compares the
keys; the keyed sort of line 295 compares `e["module"]`). -/
def keyRel {α : Type} (key : α → String) : α → α → Prop :=
  fun a b => strLe (key a) (key b)

instance decKeyRel {α : Type} (key : α → String) : DecidableRel (keyRel key) :=
  fun a b => inferInstanceAs (Decidable (strLe (key a) (key b)))

/-- Python `sorted` with a string key (stable comparison-sort). -/
def sortByKey {α : Type} (key : α → String) (l : List α) : List α :=
  l.insertionSort (keyRel key)

/-- One listing line body (lines 298-304): `name(params)`, then the
return-type arrow when a return type is present, then the decorator
suffix when decorators were found. -/
def signature (fname : String) (info : FuncInfo) : String :=
  let param_str := String.intercalate ", " info.params
  let sig := fname ++ "(" ++ param_str ++ ")"
  let sig := if info.ret ≠ "" then sig ++ " -> " ++ info.ret else sig
  if info.decorators ≠ [] then
    sig ++ " [Decorators: " ++ String.intercalate ", " info.decorators ++ "]"
  else sig

/-- Lines emitted for one module entry (lines 296-306), functions in
sorted order, with the trailing blank line. -/
def moduleBlockLines (e : ModuleEntry) : List String :=
  ("  Module: " ++ e.module)
    :: ((sortByKey Prod.fst e.functions).map (fun p => "    - " ++ signature p.1 p.2) ++ [""])

/-- Lines emitted for one package (lines 294-307), modules in sorted
order, with the trailing blank line. -/
def packageBlockLines (p : String × List ModuleEntry) : List String :=
  ("Package: " ++ p.1) :: ((sortByKey ModuleEntry.module p.2).flatMap moduleBlockLines ++ [""])

/-- The two-line banner plus blank line (line 292). -/
def docHeader : List String :=
  ["Module-Level Functions Documentation", String.mk (List.replicate 40 '='), ""]

/-- All lines of the listing document, packages in sorted order. -/
def docLines (modules : ModDict) : List String :=
  docHeader ++ (sortByKey Prod.fst modules).flatMap packageBlockLines

/-- Model of `generate_module_functions_doc` (lines 287-308). -/
def generate_module_functions_doc (modules : ModDict) : String :=
  String.intercalate "\n" (docLines modules)

/-- The relation `keyRel` strengthened with distinctness of the keys; on lists whose
keys are pairwise distinct this is an antisymmetric order, which pins
down the sorted arrangement uniquely. -/
def keyStrict {α : Type} (key : α → String) : α → α → Prop :=
  fun a b => keyRel key a b ∧ key a ≠ key b

mutual

/-- The names of every class-like definition node at any nesting depth
inside one statement (the domain of the claim that no nested class is
missed). -/
def classNamesOfStmt : Stmt → List String
  | .classDef n body => n :: classNamesOfList body
  | .functionDef _ _ body _ _ => classNamesOfList body
  | .other children => classNamesOfList children
  | _ => []

/-- The class-definition names at any depth inside a statement list. -/
def classNamesOfList : List Stmt → List String
  | [] => []
  | s :: rest => classNamesOfStmt s ++ classNamesOfList rest

end

/-- Two module entries describing the same discovered content: same
module name, functions discovered in possibly different order. -/
def EntryPerm (a b : ModuleEntry) : Prop :=
  a.module = b.module ∧ a.functions.Perm b.functions

/-- Two per-package module lists describing the same discovered content
in possibly different order. -/
def EntriesEquiv (l₁ l₂ : List ModuleEntry) : Prop :=
  ∃ l, l₁.Perm l ∧ List.Forall₂ EntryPerm l l₂

/-- Two aggregates of module-level functions describing the same
discovered content, with the packages, the modules within each package
and the functions within each module in possibly different order. -/
def AggEquiv (m₁ m₂ : ModDict) : Prop :=
  ∃ l, m₁.Perm l ∧ List.Forall₂ (fun p q => p.1 = q.1 ∧ EntriesEquiv p.2 q.2) l m₂

/-- Function names of one module entry are pairwise distinct (true of
every dict `parse_module_functions` produces). -/
def ModNodup (e : ModuleEntry) : Prop :=
  (e.functions.map Prod.fst).Nodup

/-- Module names within a package are pairwise distinct and each module
entry has distinct function names.  This is an explicit hypothesis, not
an invariant of the program: file names within one directory are
unique, but `compute_package_name` (lines 125-133) is not injective (a
subdirectory literally named `root` collides with the scan root, and a
directory named `x.y` collides with the path `x/y`), so one package key
can collect two entries carrying the same module name. -/
def PkgNodup (p : String × List ModuleEntry) : Prop :=
  (p.2.map ModuleEntry.module).Nodup ∧ ∀ e ∈ p.2, ModNodup e

/-- All key lists of the aggregate are duplicate-free. -/
def AggNodup (m : ModDict) : Prop :=
  (m.map Prod.fst).Nodup ∧ ∀ p ∈ m, PkgNodup p

instance decModNodup (e : ModuleEntry) : Decidable (ModNodup e) :=
  inferInstanceAs (Decidable ((e.functions.map Prod.fst).Nodup))

instance decPkgNodup (p : String × List ModuleEntry) : Decidable (PkgNodup p) :=
  inferInstanceAs (Decidable (_ ∧ _))

instance decAggNodup (m : ModDict) : Decidable (AggNodup m) :=
  inferInstanceAs (Decidable (_ ∧ _))

/-! ### Order facts about the string comparison used by `sorted` -/

theorem charListLe_total : ∀ a b : List Char, charListLe a b = true ∨ charListLe b a = true := by
  intro a
  induction a with
  | nil => intro b; left; rfl
  | cons x xs ih =>
    intro b
    cases b with
    | nil => right; rfl
    | cons y ys =>
      rcases Nat.lt_trichotomy x.val.toNat y.val.toNat with h | h | h
      · left; simp [charListLe, h]
      · have hxy : x = y := Char.ext (UInt32.ext h)
        subst hxy
        rcases ih ys with h2 | h2
        · left; simpa [charListLe] using h2
        · right; simpa [charListLe] using h2
      · right; simp [charListLe, h]

theorem charListLe_trans :
    ∀ a b c : List Char, charListLe a b = true → charListLe b c = true →
      charListLe a c = true := by
  intro a
  induction a with
  | nil => intro b c _ _; rfl
  | cons x xs ih =>
    intro b c hab hbc
    cases b with
    | nil => simp [charListLe] at hab
    | cons y ys =>
      cases c with
      | nil => simp [charListLe] at hbc
      | cons z zs =>
        rcases Nat.lt_trichotomy x.val.toNat y.val.toNat with h1 | h1 | h1
        · rcases Nat.lt_trichotomy y.val.toNat z.val.toNat with h2 | h2 | h2
          · simp [charListLe, Nat.lt_trans h1 h2]
          · have : y = z := Char.ext (UInt32.ext h2)
            subst this
            simp [charListLe, h1]
          · simp [charListLe, Nat.lt_asymm h2, h2] at hbc
        · have : x = y := Char.ext (UInt32.ext h1)
          subst this
          rcases Nat.lt_trichotomy x.val.toNat z.val.toNat with h2 | h2 | h2
          · simp [charListLe, h2]
          · have : x = z := Char.ext (UInt32.ext h2)
            subst this
            simp only [charListLe, Nat.lt_irrefl, if_false] at hab hbc ⊢
            exact ih ys zs hab hbc
          · simp only [charListLe, Nat.lt_irrefl, if_false] at hab
            simp [charListLe, Nat.lt_asymm h2, h2] at hbc
        · simp [charListLe, Nat.lt_asymm h1, h1] at hab

theorem charListLe_antisymm :
    ∀ a b : List Char, charListLe a b = true → charListLe b a = true → a = b := by
  intro a
  induction a with
  | nil =>
    intro b _ hba
    cases b with
    | nil => rfl
    | cons y ys => simp [charListLe] at hba
  | cons x xs ih =>
    intro b hab hba
    cases b with
    | nil => simp [charListLe] at hab
    | cons y ys =>
      rcases Nat.lt_trichotomy x.val.toNat y.val.toNat with h | h | h
      · simp [charListLe, Nat.lt_asymm h, h] at hba
      · have : x = y := Char.ext (UInt32.ext h)
        subst this
        simp only [charListLe, Nat.lt_irrefl, if_false] at hab hba
        rw [ih ys hab hba]
      · simp [charListLe, Nat.lt_asymm h, h] at hab

theorem strLe_total (s t : String) : strLe s t ∨ strLe t s :=
  charListLe_total s.data t.data

theorem strLe_trans {s t u : String} (h1 : strLe s t) (h2 : strLe t u) : strLe s u :=
  charListLe_trans s.data t.data u.data h1 h2

theorem strLe_antisymm {s t : String} (h1 : strLe s t) (h2 : strLe t s) : s = t := by
  have h := charListLe_antisymm s.data t.data h1 h2
  cases s with
  | mk d1 =>
    cases t with
    | mk d2 => exact congrArg String.mk h

instance keyRelTotal {α : Type} (key : α → String) : IsTotal α (keyRel key) :=
  ⟨fun a b => strLe_total (key a) (key b)⟩

instance keyRelTrans {α : Type} (key : α → String) : IsTrans α (keyRel key) :=
  ⟨fun _ _ _ h h2 => strLe_trans h h2⟩

instance keyStrictAntisymm {α : Type} (key : α → String) : IsAntisymm α (keyStrict key) :=
  ⟨fun _ _ h h2 => absurd (strLe_antisymm h.1 h2.1) h.2⟩

/-! ### Generic facts about `sortByKey` -/

theorem sortByKey_perm {α : Type} (key : α → String) (l : List α) :
    List.Perm (sortByKey key l) l :=
  List.perm_insertionSort (keyRel key) l

theorem sortByKey_sorted {α : Type} (key : α → String) (l : List α) :
    List.Sorted (keyRel key) (sortByKey key l) :=
  List.sorted_insertionSort (keyRel key) l

theorem sorted_keyStrict {α : Type} (key : α → String) {l : List α}
    (hs : List.Sorted (keyRel key) l) (hnd : (l.map key).Nodup) :
    List.Sorted (keyStrict key) l := by
  have hne : l.Pairwise (fun a b => key a ≠ key b) := List.pairwise_map.mp hnd
  exact hs.and hne

theorem sortByKey_eq_of_perm {α : Type} (key : α → String) {l₁ l₂ : List α}
    (hp : List.Perm l₁ l₂) (hnd : (l₁.map key).Nodup) :
    sortByKey key l₁ = sortByKey key l₂ := by
  have hp2 : List.Perm (sortByKey key l₁) (sortByKey key l₂) :=
    (sortByKey_perm key l₁).trans (hp.trans (sortByKey_perm key l₂).symm)
  have hnd₁ : ((sortByKey key l₁).map key).Nodup :=
    (((sortByKey_perm key l₁).map key).nodup_iff).mpr hnd
  have hnd₂ : ((sortByKey key l₂).map key).Nodup :=
    (((sortByKey_perm key l₂).map key).nodup_iff).mpr ((hp.map key).nodup_iff.mp hnd)
  exact List.eq_of_perm_of_sorted hp2
    (sorted_keyStrict key (sortByKey_sorted key l₁) hnd₁)
    (sorted_keyStrict key (sortByKey_sorted key l₂) hnd₂)

theorem orderedInsert_map {α β : Type} (key : α → String) (keyb : β → String)
    (f : α → β) (hk : ∀ a, keyb (f a) = key a) (a : α) :
    ∀ l : List α,
      (l.orderedInsert (keyRel key) a).map f =
        (l.map f).orderedInsert (keyRel keyb) (f a)
  | [] => rfl
  | b :: l => by
    by_cases h : keyRel key a b
    · have h2 : keyRel keyb (f a) (f b) := by
        simpa only [keyRel, hk] using h
      simp [List.orderedInsert, h, h2]
    · have h2 : ¬ keyRel keyb (f a) (f b) := by
        simpa only [keyRel, hk] using h
      simp [List.orderedInsert, h, h2, orderedInsert_map key keyb f hk a l]

theorem sortByKey_map {α β : Type} (key : α → String) (keyb : β → String)
    (f : α → β) (hk : ∀ a, keyb (f a) = key a) :
    ∀ l : List α, sortByKey keyb (l.map f) = (sortByKey key l).map f
  | [] => rfl
  | x :: l => by
    simp only [List.map, sortByKey, List.insertionSort]
    rw [show (l.map f).insertionSort (keyRel keyb) = sortByKey keyb (l.map f) from rfl,
      sortByKey_map key keyb f hk l]
    exact (orderedInsert_map key keyb f hk x (sortByKey key l)).symm

theorem map_eq_of_forall₂ {α β : Type} {R : α → α → Prop} {f : α → β} :
    ∀ {l₁ l₂ : List α}, List.Forall₂ R l₁ l₂ →
      (∀ a b, a ∈ l₁ → R a b → f a = f b) → l₁.map f = l₂.map f := by
  intro l₁ l₂ h
  induction h with
  | nil => intro _; rfl
  | cons hR _ ih =>
    intro hf
    simp only [List.map]
    rw [hf _ _ (List.mem_cons_self _ _) hR,
      ih (fun a b ha hab => hf a b (List.mem_cons_of_mem _ ha) hab)]

/-! ### The listing renderer respects content up to discovery order -/

theorem moduleBlockLines_congr {a b : ModuleEntry} (h : EntryPerm a b)
    (hnd : ModNodup a) : moduleBlockLines a = moduleBlockLines b := by
  obtain ⟨hm, hp⟩ := h
  unfold moduleBlockLines
  rw [hm, sortByKey_eq_of_perm Prod.fst hp hnd]

theorem packageBlockLines_congr {p q : String × List ModuleEntry}
    (hk : p.1 = q.1) (he : EntriesEquiv p.2 q.2) (hnd : PkgNodup p) :
    packageBlockLines p = packageBlockLines q := by
  obtain ⟨l, hperm, hfa⟩ := he
  have hmaps :
      (sortByKey ModuleEntry.module p.2).map (fun e => moduleBlockLines e) =
        (sortByKey ModuleEntry.module q.2).map (fun e => moduleBlockLines e) := by
    have hfp : ∀ e : ModuleEntry,
        Prod.fst ((fun e => (e.module, moduleBlockLines e)) e) = e.module := fun _ => rfl
    have hA := sortByKey_map ModuleEntry.module Prod.fst
      (fun e => (e.module, moduleBlockLines e)) hfp p.2
    have hB := sortByKey_map ModuleEntry.module Prod.fst
      (fun e => (e.module, moduleBlockLines e)) hfp q.2
    have hmapeq : l.map (fun e => (e.module, moduleBlockLines e)) =
        q.2.map (fun e => (e.module, moduleBlockLines e)) := by
      refine map_eq_of_forall₂ hfa ?_
      intro a b ha hab
      have hnda : ModNodup a := hnd.2 a (hperm.symm.subset ha)
      have := moduleBlockLines_congr hab hnda
      simp [hab.1, this]
    have hperm2 : List.Perm (p.2.map (fun e => (e.module, moduleBlockLines e)))
        (q.2.map (fun e => (e.module, moduleBlockLines e))) := by
      rw [← hmapeq]
      exact hperm.map _
    have hndk : ((p.2.map (fun e => (e.module, moduleBlockLines e))).map Prod.fst).Nodup := by
      rw [List.map_map]
      exact hnd.1
    have hC := sortByKey_eq_of_perm Prod.fst hperm2 hndk
    have := hA.symm.trans (hC.trans hB)
    have hmm := congrArg (List.map Prod.snd) this
    simpa [List.map_map, Function.comp] using hmm
  unfold packageBlockLines
  rw [hk]
  have : (sortByKey ModuleEntry.module p.2).flatMap moduleBlockLines =
      (sortByKey ModuleEntry.module q.2).flatMap moduleBlockLines := by
    show ((sortByKey ModuleEntry.module p.2).map moduleBlockLines).flatten =
      ((sortByKey ModuleEntry.module q.2).map moduleBlockLines).flatten
    rw [show (sortByKey ModuleEntry.module p.2).map moduleBlockLines =
        (sortByKey ModuleEntry.module p.2).map (fun e => moduleBlockLines e) from rfl,
      hmaps]
  rw [this]

theorem docLines_congr {m₁ m₂ : ModDict} (h : AggEquiv m₁ m₂) (hnd : AggNodup m₁) :
    docLines m₁ = docLines m₂ := by
  obtain ⟨l, hperm, hfa⟩ := h
  have hmaps :
      (sortByKey Prod.fst m₁).map (fun p => packageBlockLines p) =
        (sortByKey Prod.fst m₂).map (fun p => packageBlockLines p) := by
    have hfp : ∀ p : String × List ModuleEntry,
        Prod.fst ((fun p => (p.1, packageBlockLines p)) p) = p.1 := fun _ => rfl
    have hA := sortByKey_map Prod.fst Prod.fst
      (fun p => (p.1, packageBlockLines p)) hfp m₁
    have hB := sortByKey_map Prod.fst Prod.fst
      (fun p => (p.1, packageBlockLines p)) hfp m₂
    have hmapeq : l.map (fun p => (p.1, packageBlockLines p)) =
        m₂.map (fun p => (p.1, packageBlockLines p)) := by
      refine map_eq_of_forall₂ hfa ?_
      intro a b ha hab
      have hnda : PkgNodup a := hnd.2 a (hperm.symm.subset ha)
      have := packageBlockLines_congr hab.1 hab.2 hnda
      simp [hab.1, this]
    have hperm2 : List.Perm (m₁.map (fun p => (p.1, packageBlockLines p)))
        (m₂.map (fun p => (p.1, packageBlockLines p))) := by
      rw [← hmapeq]
      exact hperm.map _
    have hndk : ((m₁.map (fun p => (p.1, packageBlockLines p))).map Prod.fst).Nodup := by
      rw [List.map_map]
      exact hnd.1
    have hC := sortByKey_eq_of_perm Prod.fst hperm2 hndk
    have := hA.symm.trans (hC.trans hB)
    have hmm := congrArg (List.map Prod.snd) this
    simpa [List.map_map, Function.comp] using hmm
  unfold docLines
  have : (sortByKey Prod.fst m₁).flatMap packageBlockLines =
      (sortByKey Prod.fst m₂).flatMap packageBlockLines := by
    show ((sortByKey Prod.fst m₁).map packageBlockLines).flatten =
      ((sortByKey Prod.fst m₂).map packageBlockLines).flatten
    rw [show (sortByKey Prod.fst m₁).map packageBlockLines =
        (sortByKey Prod.fst m₁).map (fun p => packageBlockLines p) from rfl,
      hmaps]
  rw [this]

/-- C8 as amended: the rendered function listing traverses packages,
modules and functions in sorted key order, and it is independent of
discovery order PROVIDED the key lists at every level are
duplicate-free (two aggregates with the same content up to reordering
at every level then render byte-identically); when a package-key
collision puts two same-named modules into one package the stable sort
preserves their discovery order and the output depends on it (see the
counterexample).  Each function line has the form
`name(params) -> ReturnType [Decorators: d1, d2, ...]` with the arrow
omitted when no return type is present and the decorator suffix omitted
when no decorators were found. -/
theorem c8_listing_sorted_and_formatted (m₁ m₂ : ModDict)
    (hperm : AggEquiv m₁ m₂) (hnd : AggNodup m₁) :
    generate_module_functions_doc m₁ = generate_module_functions_doc m₂ ∧
    (∀ fname info, info.ret = "" → info.decorators = [] →
      signature fname info =
        fname ++ "(" ++ String.intercalate ", " info.params ++ ")") ∧
    (∀ fname info, info.ret ≠ "" → info.decorators = [] →
      signature fname info =
        fname ++ "(" ++ String.intercalate ", " info.params ++ ")" ++ " -> " ++ info.ret) ∧
    (∀ fname info, info.ret = "" → info.decorators ≠ [] →
      signature fname info =
        fname ++ "(" ++ String.intercalate ", " info.params ++ ")" ++ " [Decorators: " ++
          String.intercalate ", " info.decorators ++ "]") ∧
    (∀ fname info, info.ret ≠ "" → info.decorators ≠ [] →
      signature fname info =
        fname ++ "(" ++ String.intercalate ", " info.params ++ ")" ++ " -> " ++ info.ret ++
          " [Decorators: " ++ String.intercalate ", " info.decorators ++ "]") ∧
    (∀ p ∈ m₁, ∀ e ∈ p.2, ∀ fi ∈ e.functions,
      ("    - " ++ signature fi.1 fi.2) ∈ docLines m₁) ∧
    List.Sorted (keyRel Prod.fst) (sortByKey Prod.fst m₁) ∧
    (∀ p ∈ m₁, List.Sorted (keyRel ModuleEntry.module) (sortByKey ModuleEntry.module p.2)) ∧
    (∀ p ∈ m₁, ∀ e ∈ p.2, List.Sorted (keyRel Prod.fst) (sortByKey Prod.fst e.functions)) := by
  refine ⟨?_, ?_, ?_, ?_, ?_, ?_, ?_, ?_, ?_⟩
  · unfold generate_module_functions_doc
    rw [docLines_congr hperm hnd]
  · intro fname info h1 h2
    simp [signature, h1, h2]
  · intro fname info h1 h2
    simp [signature, h1, h2]
  · intro fname info h1 h2
    simp [signature, h1, h2]
  · intro fname info h1 h2
    simp [signature, h1, h2]
  · intro p hp e he fi hfi
    unfold docLines
    refine List.mem_append_right _ ?_
    refine List.mem_flatMap.mpr ⟨p, (sortByKey_perm Prod.fst m₁).mem_iff.mpr hp, ?_⟩
    unfold packageBlockLines
    refine List.mem_cons_of_mem _ (List.mem_append_left _ ?_)
    refine List.mem_flatMap.mpr
      ⟨e, (sortByKey_perm ModuleEntry.module p.2).mem_iff.mpr he, ?_⟩
    unfold moduleBlockLines
    refine List.mem_cons_of_mem _ (List.mem_append_left _ ?_)
    exact List.mem_map.mpr ⟨fi, (sortByKey_perm Prod.fst e.functions).mem_iff.mpr hfi, rfl⟩
  · exact sortByKey_sorted Prod.fst m₁
  · intro p _; exact sortByKey_sorted ModuleEntry.module p.2
  · intro p _ e _; exact sortByKey_sorted Prod.fst e.functions

/-- Witness for C8: two concrete aggregates carrying the same functions
with packages and functions discovered in opposite order render to the
same document. -/
theorem c8_listing_sorted_and_formatted_witness :
    generate_module_functions_doc
        [("a", [⟨"m", [("f", ⟨[], "", []⟩), ("g", ⟨[], "", []⟩)]⟩]),
          ("b", [⟨"n", [("h", ⟨[], "", []⟩)]⟩])] =
      generate_module_functions_doc
        [("b", [⟨"n", [("h", ⟨[], "", []⟩)]⟩]),
          ("a", [⟨"m", [("g", ⟨[], "", []⟩), ("f", ⟨[], "", []⟩)]⟩])] := by
  refine (c8_listing_sorted_and_formatted _ _ ?_ (by decide)).1
  refine ⟨[("b", [⟨"n", [("h", ⟨[], "", []⟩)]⟩]),
    ("a", [⟨"m", [("f", ⟨[], "", []⟩), ("g", ⟨[], "", []⟩)]⟩])], ?_, ?_⟩
  · exact List.Perm.swap _ _ _
  · refine List.Forall₂.cons ⟨rfl, [⟨"n", [("h", ⟨[], "", []⟩)]⟩], List.Perm.refl _, ?_⟩ ?_
    · exact List.Forall₂.cons ⟨rfl, List.Perm.refl _⟩ List.Forall₂.nil
    · refine List.Forall₂.cons ⟨rfl, [⟨"m", [("f", ⟨[], "", []⟩), ("g", ⟨[], "", []⟩)]⟩],
        List.Perm.refl _, ?_⟩ List.Forall₂.nil
      exact List.Forall₂.cons ⟨rfl, List.Perm.swap _ _ _⟩ List.Forall₂.nil

/-- Counterexample to C8 as stated: `compute_package_name` maps both
the scan root and a subdirectory literally named `root` to the package
key `root`, so two files both named `a.py` land in one package as two
module entries both named `a`.  The directory walk then yields, for the
two discovery orders of these files, two aggregates with the same
content whose rendered listings differ: the stable module sort keeps
the tied entries in discovery order, so the output is NOT independent
of the order in which files were discovered. -/
theorem c8_discovery_order_counterexample :
    (parse_directory_module_functions
        [⟨"a.py", "root", "a",
            Except.ok [Stmt.functionDef "f" ⟨[], [], none, [], none⟩ [] [] none]⟩,
          ⟨"root/a.py", "root", "a",
            Except.ok [Stmt.functionDef "g" ⟨[], [], none, [], none⟩ [] [] none]⟩]).1 =
      [("root", [⟨"a", [("f", ⟨[], "", []⟩)]⟩, ⟨"a", [("g", ⟨[], "", []⟩)]⟩])] ∧
    (parse_directory_module_functions
        [⟨"root/a.py", "root", "a",
            Except.ok [Stmt.functionDef "g" ⟨[], [], none, [], none⟩ [] [] none]⟩,
          ⟨"a.py", "root", "a",
            Except.ok [Stmt.functionDef "f" ⟨[], [], none, [], none⟩ [] [] none]⟩]).1 =
      [("root", [⟨"a", [("g", ⟨[], "", []⟩)]⟩, ⟨"a", [("f", ⟨[], "", []⟩)]⟩])] ∧
    generate_module_functions_doc
        [("root", [⟨"a", [("f", ⟨[], "", []⟩)]⟩, ⟨"a", [("g", ⟨[], "", []⟩)]⟩])] ≠
      generate_module_functions_doc
        [("root", [⟨"a", [("g", ⟨[], "", []⟩)]⟩, ⟨"a", [("f", ⟨[], "", []⟩)]⟩])] := by
  refine ⟨?_, ?_, ?_⟩
  · decide
  · decide
  · decide

theorem strAppend_cancel_left (s : String) {t u : String} (h : s ++ t = s ++ u) :
    t = u := by
  have h2 : (s ++ t).data = (s ++ u).data := congrArg String.data h
  simp only [String.data_append] at h2
  have h3 := List.append_cancel_left h2
  cases t; cases u; simp_all

theorem strAppend_cancel_right (s : String) {t u : String} (h : t ++ s = u ++ s) :
    t = u := by
  have h2 : (t ++ s).data = (u ++ s).data := congrArg String.data h
  simp only [String.data_append] at h2
  have h3 := List.append_cancel_right h2
  cases t; cases u; simp_all

/-- C9: rendering the same aggregate mapping twice yields byte-identical
output; both renderers are pure functions of their input with no hidden
state in the shallow embedding. -/
theorem c9_render_deterministic (packages : PkgDict) (modules : ModDict) :
    generate_plantuml packages = generate_plantuml packages ∧
    generate_module_functions_doc modules = generate_module_functions_doc modules :=
  ⟨rfl, rfl⟩

/-- C10: rendered parameter lists (for methods and for module-level
functions) are a function of `args.args` alone: positional-only
parameters, `*args`, keyword-only parameters and `**kwargs` are silently
omitted from every signature. -/
theorem c10_only_plain_params (a₁ a₂ : Arguments) (h : a₁.args = a₂.args) :
    buildMethodParams a₁ = buildMethodParams a₂ ∧
    buildFunctionParams a₁ = buildFunctionParams a₂ ∧
    (∀ a : Arguments,
      buildMethodParams a = buildMethodParams ⟨[], a.args, none, [], none⟩ ∧
      buildFunctionParams a = buildFunctionParams ⟨[], a.args, none, [], none⟩) := by
  refine ⟨?_, ?_, fun a => ⟨rfl, rfl⟩⟩
  · unfold buildMethodParams
    rw [h]
  · unfold buildFunctionParams
    rw [h]

/-- Witness for C10: a signature with positional-only, variadic,
keyword-only and double-variadic parameters renders exactly as one
carrying only the plain parameters. -/
theorem c10_only_plain_params_witness :
    buildMethodParams
        ⟨[⟨"p", none⟩], [⟨"self", none⟩, ⟨"x", none⟩], some ⟨"a", none⟩,
          [⟨"k", none⟩], some ⟨"kw", none⟩⟩ =
      buildMethodParams ⟨[], [⟨"self", none⟩, ⟨"x", none⟩], none, [], none⟩ :=
  (c10_only_plain_params
    ⟨[⟨"p", none⟩], [⟨"self", none⟩, ⟨"x", none⟩], some ⟨"a", none⟩,
      [⟨"k", none⟩], some ⟨"kw", none⟩⟩
    ⟨[], [⟨"self", none⟩, ⟨"x", none⟩], none, [], none⟩ rfl).1

/-- C4 as amended: in the entry list of one package, an entry whose
class name occurs more than once is displayed with its module appended
in parentheses and an entry whose class name is unique is displayed
bare; the display names of two same-named entries are distinct exactly
when their originating modules differ — when a package-key collision
makes two same-named entries carry the same module name, their display
names coincide (see the counterexample). -/
theorem c4_duplicate_display_names (es : List ClassEntry) (e : ClassEntry)
    (he : e ∈ es) :
    (1 < countName es e.class_name →
      display_name es e = e.class_name ++ " (" ++ e.module ++ ")" ∧
      (∀ e2 ∈ es, e2.class_name = e.class_name → e2.module ≠ e.module →
        display_name es e2 ≠ display_name es e) ∧
      (∀ e2 ∈ es, e2.class_name = e.class_name → e2.module = e.module →
        display_name es e2 = display_name es e)) ∧
    (countName es e.class_name ≤ 1 → display_name es e = e.class_name) := by
  constructor
  · intro hgt
    refine ⟨?_, ?_, ?_⟩
    · unfold display_name
      rw [if_pos hgt]
    · intro e2 _ hc hm heq
      unfold display_name at heq
      rw [hc] at heq
      simp only [if_pos hgt] at heq
      exact hm (strAppend_cancel_left (e.class_name ++ " (")
        (strAppend_cancel_right ")"
          (by simpa only [String.append_assoc] using heq)))
    · intro e2 _ hc hm
      unfold display_name
      rw [hc, hm]
  · intro hle
    unfold display_name
    rw [if_neg (by omega)]

/-- Counterexample to C4 as stated: `compute_package_name` maps both
the scan root and a subdirectory literally named `root` to the package
key `root`, so two files both named `a.py`, each defining class `C`,
land in one package as two entries with the same class name AND the
same module name.  Both entries are displayed as `C (a)`: the display
names of the same-named entries are not distinct. -/
theorem c4_duplicate_display_counterexample :
    (parse_directory
        [⟨"a.py", "root", "a", Except.ok [Stmt.classDef "C" []]⟩,
          ⟨"root/a.py", "root", "a", Except.ok [Stmt.classDef "C" []]⟩]).1 =
      [("root", [⟨"C", ⟨[], [], [], []⟩, "a"⟩, ⟨"C", ⟨[], [], [], []⟩, "a"⟩])] ∧
    1 < countName [⟨"C", ⟨[], [], [], []⟩, "a"⟩, ⟨"C", ⟨[], [], [], []⟩, "a"⟩] "C" ∧
    display_name [⟨"C", ⟨[], [], [], []⟩, "a"⟩, ⟨"C", ⟨[], [], [], []⟩, "a"⟩]
        ⟨"C", ⟨[], [], [], []⟩, "a"⟩ = "C (a)" ∧
    ¬ (([⟨"C", ⟨[], [], [], []⟩, "a"⟩, ⟨"C", ⟨[], [], [], []⟩, "a"⟩].map
        (display_name [⟨"C", ⟨[], [], [], []⟩, "a"⟩,
          ⟨"C", ⟨[], [], [], []⟩, "a"⟩])).Nodup) := by
  refine ⟨?_, ?_, ?_, ?_⟩
  · decide
  · decide
  · decide
  · decide

/-- Witness for C4: with two entries named `A` from modules `m1`, `m2`
and one entry named `B`, the duplicates render with their modules
appended and differ, while `B` renders bare. -/
theorem c4_duplicate_display_names_witness :
    display_name [⟨"A", ⟨[], [], [], []⟩, "m1"⟩, ⟨"A", ⟨[], [], [], []⟩, "m2"⟩,
        ⟨"B", ⟨[], [], [], []⟩, "m1"⟩] ⟨"A", ⟨[], [], [], []⟩, "m1"⟩ =
      "A" ++ " (" ++ "m1" ++ ")" ∧
    display_name [⟨"A", ⟨[], [], [], []⟩, "m1"⟩, ⟨"A", ⟨[], [], [], []⟩, "m2"⟩,
        ⟨"B", ⟨[], [], [], []⟩, "m1"⟩] ⟨"A", ⟨[], [], [], []⟩, "m2"⟩ ≠
      display_name [⟨"A", ⟨[], [], [], []⟩, "m1"⟩, ⟨"A", ⟨[], [], [], []⟩, "m2"⟩,
        ⟨"B", ⟨[], [], [], []⟩, "m1"⟩] ⟨"A", ⟨[], [], [], []⟩, "m1"⟩ ∧
    display_name [⟨"A", ⟨[], [], [], []⟩, "m1"⟩, ⟨"A", ⟨[], [], [], []⟩, "m2"⟩,
        ⟨"B", ⟨[], [], [], []⟩, "m1"⟩] ⟨"B", ⟨[], [], [], []⟩, "m1"⟩ = "B" := by
  refine ⟨?_, ?_, ?_⟩
  · exact ((c4_duplicate_display_names _ _ (by decide)).1 (by decide)).1
  · exact ((c4_duplicate_display_names _ ⟨"A", ⟨[], [], [], []⟩, "m1"⟩ (by decide)).1
      (by decide)).2.1 ⟨"A", ⟨[], [], [], []⟩, "m2"⟩ (by decide) (by decide) (by decide)
  · exact (c4_duplicate_display_names _ _ (by decide)).2 (by decide)

/-- C1 (code bug): a class whose canonical initializer assigns
`self.x = 0` yields a record with empty method maps and empty attribute
sets: the dunder skip on line 52 fires before the `__init__` special
case on lines 91-102, so `__init__` is never recorded and its body is
never scanned, contradicting the docstring and comments of the visitor itself. -/
theorem c1_init_skipped_code_bug :
    processClassDef
        [Stmt.functionDef "__init__" ⟨[], [⟨"self", none⟩], none, [], none⟩
          [Stmt.assign [Target.attr (TVal.name "self") "x"]] [] none] =
      { attributes := [], private_attributes := [], methods := [], private_methods := [] } := by
  decide

/-! ### Dictionary and set lemmas -/

theorem mem_dictKeys_iff_any {β : Type} (d : List (String × β)) (k : String) :
    (d.any (fun p => p.1 = k)) = true ↔ k ∈ dictKeys d := by
  simp [dictKeys, List.any_eq_true, List.mem_map]

theorem dictKeys_insertDict {β : Type} (d : List (String × β)) (k : String) (v : β) :
    dictKeys (insertDict d k v) =
      if k ∈ dictKeys d then dictKeys d else dictKeys d ++ [k] := by
  unfold insertDict
  by_cases h : k ∈ dictKeys d
  · rw [if_pos ((mem_dictKeys_iff_any d k).mpr h), if_pos h]
    unfold dictKeys
    rw [List.map_map]
    refine List.map_congr_left ?_
    intro p _
    by_cases hp : p.1 = k
    · simp [hp]
    · simp [hp]
  · rw [if_neg (fun ha => h ((mem_dictKeys_iff_any d k).mp ha)), if_neg h]
    unfold dictKeys
    simp

theorem mem_dictKeys_insertDict_self {β : Type} (d : List (String × β)) (k : String)
    (v : β) : k ∈ dictKeys (insertDict d k v) := by
  rw [dictKeys_insertDict]
  by_cases h : k ∈ dictKeys d
  · rw [if_pos h]; exact h
  · rw [if_neg h]; exact List.mem_append_right _ (List.mem_singleton.mpr rfl)

theorem mem_dictKeys_insertDict_of_mem {β : Type} {d : List (String × β)} {q : String}
    (k : String) (v : β) (h : q ∈ dictKeys d) : q ∈ dictKeys (insertDict d k v) := by
  rw [dictKeys_insertDict]
  by_cases hk : k ∈ dictKeys d
  · rw [if_pos hk]; exact h
  · rw [if_neg hk]; exact List.mem_append_left _ h

theorem not_mem_dictKeys_insertDict {β : Type} {d : List (String × β)} {q k : String}
    (v : β) (hq : q ∉ dictKeys d) (hne : q ≠ k) : q ∉ dictKeys (insertDict d k v) := by
  rw [dictKeys_insertDict]
  by_cases hk : k ∈ dictKeys d
  · rw [if_pos hk]; exact hq
  · rw [if_neg hk]
    intro hmem
    rcases List.mem_append.mp hmem with h | h
    · exact hq h
    · exact hne (List.mem_singleton.mp h)

theorem mem_addName_self (l : List String) (x : String) : x ∈ addName l x := by
  unfold addName
  by_cases h : x ∈ l
  · rw [if_pos h]; exact h
  · rw [if_neg h]; exact List.mem_append_right _ (List.mem_singleton.mpr rfl)

theorem subset_addName (l : List String) (x : String) : l ⊆ addName l x := by
  unfold addName
  by_cases h : x ∈ l
  · rw [if_pos h]
    exact fun a ha => ha
  · rw [if_neg h]; exact fun a ha => List.mem_append_left _ ha

theorem mem_addName {l : List String} {x y : String} (h : y ∈ addName l x) :
    y ∈ l ∨ y = x := by
  unfold addName at h
  by_cases hx : x ∈ l
  · rw [if_pos hx] at h; exact Or.inl h
  · rw [if_neg hx] at h
    rcases List.mem_append.mp h with h | h
    · exact Or.inl h
    · exact Or.inr (List.mem_singleton.mp h)

/-! ### The single classification rule and its invariant -/

theorem classifyAttr_subset (s : AttrSets) (n : String) :
    s.attributes ⊆ (classifyAttr s n).attributes ∧
      s.private_attributes ⊆ (classifyAttr s n).private_attributes := by
  unfold classifyAttr
  by_cases h : isPrivate n
  · rw [if_pos h]
    exact ⟨fun a ha => ha, subset_addName _ _⟩
  · rw [if_neg h]
    exact ⟨subset_addName _ _, fun a ha => ha⟩

theorem classifyAttr_mem (s : AttrSets) (n : String) :
    (isPrivate n = false → n ∈ (classifyAttr s n).attributes) ∧
      (isPrivate n = true → n ∈ (classifyAttr s n).private_attributes) := by
  unfold classifyAttr
  constructor
  · intro h
    rw [if_neg (by simp [h])]
    exact mem_addName_self _ _
  · intro h
    rw [if_pos (by simp [h])]
    exact mem_addName_self _ _

theorem goodSets_classifyAttr {s : AttrSets} (hs : GoodSets s) (n : String) :
    GoodSets (classifyAttr s n) := by
  unfold classifyAttr
  by_cases h : isPrivate n
  · rw [if_pos h]
    refine ⟨hs.1, fun x hx => ?_⟩
    rcases mem_addName hx with h2 | h2
    · exact hs.2 x h2
    · subst h2; simpa using h
  · rw [if_neg h]
    refine ⟨fun x hx => ?_, hs.2⟩
    rcases mem_addName hx with h2 | h2
    · exact hs.1 x h2
    · subst h2; simpa using h

theorem goodSets_classify_foldl {s : AttrSets} (hs : GoodSets s) :
    ∀ l : List String, GoodSets (l.foldl classifyAttr s) := by
  intro l
  induction l generalizing s with
  | nil => exact hs
  | cons x xs ih => exact ih (goodSets_classifyAttr hs x)

theorem classify_foldl_subset (s : AttrSets) :
    ∀ l : List String,
      s.attributes ⊆ (l.foldl classifyAttr s).attributes ∧
        s.private_attributes ⊆ (l.foldl classifyAttr s).private_attributes := by
  intro l
  induction l generalizing s with
  | nil => exact ⟨fun a ha => ha, fun a ha => ha⟩
  | cons x xs ih =>
    refine ⟨fun a ha => ?_, fun a ha => ?_⟩
    · exact (ih (classifyAttr s x)).1 ((classifyAttr_subset s x).1 ha)
    · exact (ih (classifyAttr s x)).2 ((classifyAttr_subset s x).2 ha)

/-! ### Pass 1: class-body attributes -/

theorem classBodyAttrStep_subset (s : AttrSets) (st : Stmt) :
    s.attributes ⊆ (classBodyAttrStep s st).attributes ∧
      s.private_attributes ⊆ (classBodyAttrStep s st).private_attributes := by
  cases st with
  | assign ts =>
    show s.attributes ⊆ (ts.foldl _ s).attributes ∧ _
    induction ts generalizing s with
    | nil => exact ⟨fun a ha => ha, fun a ha => ha⟩
    | cons t rest ih =>
      cases t with
      | name n =>
        refine ⟨fun a ha => ?_, fun a ha => ?_⟩
        · exact (ih (classifyAttr s n)).1 ((classifyAttr_subset s n).1 ha)
        · exact (ih (classifyAttr s n)).2 ((classifyAttr_subset s n).2 ha)
      | attr v a => exact ih s
      | other => exact ih s
  | annAssign t =>
    cases t with
    | name n => exact classifyAttr_subset s n
    | attr v a => exact ⟨fun a ha => ha, fun a ha => ha⟩
    | other => exact ⟨fun a ha => ha, fun a ha => ha⟩
  | functionDef a b c d e => exact ⟨fun a ha => ha, fun a ha => ha⟩
  | classDef a b => exact ⟨fun a ha => ha, fun a ha => ha⟩
  | other a => exact ⟨fun a ha => ha, fun a ha => ha⟩

theorem goodSets_classBodyAttrStep {s : AttrSets} (hs : GoodSets s) (st : Stmt) :
    GoodSets (classBodyAttrStep s st) := by
  cases st with
  | assign ts =>
    show GoodSets (ts.foldl _ s)
    induction ts generalizing s with
    | nil => exact hs
    | cons t rest ih =>
      cases t with
      | name n => exact ih (goodSets_classifyAttr hs n)
      | attr v a => exact ih hs
      | other => exact ih hs
  | annAssign t =>
    cases t with
    | name n => exact goodSets_classifyAttr hs n
    | attr v a => exact hs
    | other => exact hs
  | functionDef a b c d e => exact hs
  | classDef a b => exact hs
  | other a => exact hs

theorem pass1_subset (s : AttrSets) :
    ∀ body : List Stmt,
      s.attributes ⊆ (body.foldl classBodyAttrStep s).attributes ∧
        s.private_attributes ⊆ (body.foldl classBodyAttrStep s).private_attributes := by
  intro body
  induction body generalizing s with
  | nil => exact ⟨fun a ha => ha, fun a ha => ha⟩
  | cons st rest ih =>
    refine ⟨fun a ha => ?_, fun a ha => ?_⟩
    · exact (ih (classBodyAttrStep s st)).1 ((classBodyAttrStep_subset s st).1 ha)
    · exact (ih (classBodyAttrStep s st)).2 ((classBodyAttrStep_subset s st).2 ha)

theorem goodSets_pass1 {s : AttrSets} (hs : GoodSets s) :
    ∀ body : List Stmt, GoodSets (body.foldl classBodyAttrStep s) := by
  intro body
  induction body generalizing s with
  | nil => exact hs
  | cons st rest ih => exact ih (goodSets_classBodyAttrStep hs st)

theorem classBodyAttrStep_mem_assign (s : AttrSets) (n : String) :
    ∀ ts : List Target, Target.name n ∈ ts →
      (isPrivate n = false → n ∈ (classBodyAttrStep s (Stmt.assign ts)).attributes) ∧
        (isPrivate n = true → n ∈ (classBodyAttrStep s (Stmt.assign ts)).private_attributes) := by
  intro ts
  induction ts generalizing s with
  | nil => intro h; cases h
  | cons t rest ih =>
    intro h
    cases t with
    | name m =>
      by_cases hnm : Target.name n = Target.name m
      · have hnm2 : n = m := by injection hnm
        subst hnm2
        refine ⟨fun hp => ?_, fun hp => ?_⟩
        · exact (classBodyAttrStep_subset (classifyAttr s n) (Stmt.assign rest)).1
            ((classifyAttr_mem s n).1 hp)
        · exact (classBodyAttrStep_subset (classifyAttr s n) (Stmt.assign rest)).2
            ((classifyAttr_mem s n).2 hp)
      · have h2 : Target.name n ∈ rest := by
          rcases List.mem_cons.mp h with h3 | h3
          · exact absurd h3 hnm
          · exact h3
        exact ih (classifyAttr s m) h2
    | attr v a =>
      have h2 : Target.name n ∈ rest := by
        rcases List.mem_cons.mp h with h3 | h3
        · cases h3
        · exact h3
      exact ih s h2
    | other =>
      have h2 : Target.name n ∈ rest := by
        rcases List.mem_cons.mp h with h3 | h3
        · cases h3
        · exact h3
      exact ih s h2

theorem pass1_mem (n : String) :
    ∀ (body : List Stmt) (s : AttrSets),
      ((∃ ts, Stmt.assign ts ∈ body ∧ Target.name n ∈ ts) ∨
        (∃ v, v ∈ body ∧ v = Stmt.annAssign (Target.name n))) →
      (isPrivate n = false → n ∈ (body.foldl classBodyAttrStep s).attributes) ∧
        (isPrivate n = true → n ∈ (body.foldl classBodyAttrStep s).private_attributes) := by
  intro body
  induction body with
  | nil =>
    intro s h
    rcases h with ⟨ts, hts, _⟩ | ⟨v, hv, _⟩
    · cases hts
    · cases hv
  | cons st rest ih =>
    intro s h
    rcases h with ⟨ts, hts, htn⟩ | ⟨v, hv, hveq⟩
    · rcases List.mem_cons.mp hts with h2 | h2
      · subst h2
        refine ⟨fun hp => ?_, fun hp => ?_⟩
        · exact (pass1_subset (classBodyAttrStep s (Stmt.assign ts)) rest).1
            ((classBodyAttrStep_mem_assign s n ts htn).1 hp)
        · exact (pass1_subset (classBodyAttrStep s (Stmt.assign ts)) rest).2
            ((classBodyAttrStep_mem_assign s n ts htn).2 hp)
      · exact ih (classBodyAttrStep s st) (Or.inl ⟨ts, h2, htn⟩)
    · rcases List.mem_cons.mp hv with h2 | h2
      · subst h2
        subst hveq
        refine ⟨fun hp => ?_, fun hp => ?_⟩
        · exact (pass1_subset (classBodyAttrStep s (Stmt.annAssign (Target.name n))) rest).1
            ((classifyAttr_mem s n).1 hp)
        · exact (pass1_subset (classBodyAttrStep s (Stmt.annAssign (Target.name n))) rest).2
            ((classifyAttr_mem s n).2 hp)
      · exact ih (classBodyAttrStep s st) (Or.inr ⟨v, h2, hveq⟩)

/-! ### Pass 2: the method fold touches the attribute sets only through
the classification rule -/

theorem methodStep_attrs_subset (st : MethodState) (s : Stmt) :
    st.attrs.attributes ⊆ (methodStep st s).attrs.attributes ∧
      st.attrs.private_attributes ⊆ (methodStep st s).attrs.private_attributes := by
  cases s with
  | functionDef fname fargs fbody decs rets =>
    by_cases hd : isDunder fname = true
    · simp only [methodStep, hd, if_pos]
      exact ⟨fun a ha => ha, fun a ha => ha⟩
    · simp only [methodStep, Bool.not_eq_true] at hd
      simp only [methodStep, hd]
      by_cases hp : isPrivate fname = true
      · simp only [hp, if_pos, Bool.false_eq_true, if_false]
        by_cases hi : fname = "__init__"
        · simp only [hi, if_pos]
          exact classify_foldl_subset st.attrs (selfAssignNamesList fbody)
        · simp only [hi, if_false]
          exact ⟨fun a ha => ha, fun a ha => ha⟩
      · simp only [Bool.not_eq_true] at hp
        simp only [hp, Bool.false_eq_true, if_false]
        by_cases hi : fname = "__init__"
        · simp only [hi, if_pos]
          exact classify_foldl_subset st.attrs (selfAssignNamesList fbody)
        · simp only [hi, if_false]
          exact ⟨fun a ha => ha, fun a ha => ha⟩
  | assign ts => exact ⟨fun a ha => ha, fun a ha => ha⟩
  | annAssign t => exact ⟨fun a ha => ha, fun a ha => ha⟩
  | classDef a b => exact ⟨fun a ha => ha, fun a ha => ha⟩
  | other a => exact ⟨fun a ha => ha, fun a ha => ha⟩

theorem goodSets_methodStep {st : MethodState} (hs : GoodSets st.attrs) (s : Stmt) :
    GoodSets (methodStep st s).attrs := by
  cases s with
  | functionDef fname fargs fbody decs rets =>
    by_cases hd : isDunder fname = true
    · simp only [methodStep, hd, if_pos]
      exact hs
    · simp only [methodStep, Bool.not_eq_true] at hd
      simp only [methodStep, hd]
      by_cases hp : isPrivate fname = true
      · simp only [hp, if_pos, Bool.false_eq_true, if_false]
        by_cases hi : fname = "__init__"
        · simp only [hi, if_pos]
          exact goodSets_classify_foldl hs (selfAssignNamesList fbody)
        · simp only [hi, if_false]
          exact hs
      · simp only [Bool.not_eq_true] at hp
        simp only [hp, Bool.false_eq_true, if_false]
        by_cases hi : fname = "__init__"
        · simp only [hi, if_pos]
          exact goodSets_classify_foldl hs (selfAssignNamesList fbody)
        · simp only [hi, if_false]
          exact hs
  | assign ts => exact hs
  | annAssign t => exact hs
  | classDef a b => exact hs
  | other a => exact hs

theorem pass2_attrs_subset :
    ∀ (body : List Stmt) (st : MethodState),
      st.attrs.attributes ⊆ ((body.foldl methodStep st).attrs).attributes ∧
        st.attrs.private_attributes ⊆ ((body.foldl methodStep st).attrs).private_attributes := by
  intro body
  induction body with
  | nil => exact fun st => ⟨fun a ha => ha, fun a ha => ha⟩
  | cons s rest ih =>
    intro st
    refine ⟨fun a ha => ?_, fun a ha => ?_⟩
    · exact (ih (methodStep st s)).1 ((methodStep_attrs_subset st s).1 ha)
    · exact (ih (methodStep st s)).2 ((methodStep_attrs_subset st s).2 ha)

theorem goodSets_pass2 :
    ∀ (body : List Stmt) (st : MethodState), GoodSets st.attrs →
      GoodSets ((body.foldl methodStep st).attrs) := by
  intro body
  induction body with
  | nil => exact fun st h => h
  | cons s rest ih => exact fun st h => ih (methodStep st s) (goodSets_methodStep h s)

theorem mem_sortStrings {l : List String} {x : String} :
    x ∈ sortStrings l ↔ x ∈ l :=
  (List.perm_insertionSort strLe l).mem_iff

/-- C3: every class-body simple or annotated assignment targeting a bare
name places that name in exactly one of the attribute sets of the
resulting record, in the private set exactly when the name starts with
the underscore marker; no name ever appears in both sets. -/
theorem c3_class_body_attr_partition (body : List Stmt) (n : String)
    (h : (∃ ts, Stmt.assign ts ∈ body ∧ Target.name n ∈ ts) ∨
      Stmt.annAssign (Target.name n) ∈ body) :
    (isPrivate n = false → n ∈ (processClassDef body).attributes ∧
      n ∉ (processClassDef body).private_attributes) ∧
    (isPrivate n = true → n ∈ (processClassDef body).private_attributes ∧
      n ∉ (processClassDef body).attributes) ∧
    (∀ m, ¬(m ∈ (processClassDef body).attributes ∧
      m ∈ (processClassDef body).private_attributes)) := by
  have hgood0 : GoodSets ({ attributes := [], private_attributes := [] } : AttrSets) :=
    ⟨fun x hx => absurd hx (List.not_mem_nil x), fun x hx => absurd hx (List.not_mem_nil x)⟩
  have hgood1 := goodSets_pass1 hgood0 body
  have hgood : GoodSets ((body.foldl methodStep
      ⟨body.foldl classBodyAttrStep { attributes := [], private_attributes := [] },
        [], []⟩).attrs) :=
    goodSets_pass2 body _ hgood1
  have hattr : (processClassDef body).attributes =
      sortStrings ((body.foldl methodStep
        ⟨body.foldl classBodyAttrStep { attributes := [], private_attributes := [] },
          [], []⟩).attrs).attributes := rfl
  have hpattr : (processClassDef body).private_attributes =
      sortStrings ((body.foldl methodStep
        ⟨body.foldl classBodyAttrStep { attributes := [], private_attributes := [] },
          [], []⟩).attrs).private_attributes := rfl
  have h2 : (∃ ts, Stmt.assign ts ∈ body ∧ Target.name n ∈ ts) ∨
      (∃ v, v ∈ body ∧ v = Stmt.annAssign (Target.name n)) := by
    rcases h with h | h
    · exact Or.inl h
    · exact Or.inr ⟨_, h, rfl⟩
  have hmem := pass1_mem n body { attributes := [], private_attributes := [] } h2
  refine ⟨fun hp => ⟨?_, ?_⟩, fun hp => ⟨?_, ?_⟩, fun m hm => ?_⟩
  · rw [hattr]
    exact mem_sortStrings.mpr ((pass2_attrs_subset body _).1 (hmem.1 hp))
  · rw [hpattr]
    intro hmem2
    have := hgood.2 n (mem_sortStrings.mp hmem2)
    rw [hp] at this
    cases this
  · rw [hpattr]
    exact mem_sortStrings.mpr ((pass2_attrs_subset body _).2 (hmem.2 hp))
  · rw [hattr]
    intro hmem2
    have := hgood.1 n (mem_sortStrings.mp hmem2)
    rw [hp] at this
    cases this
  · rw [hattr] at hm
    rw [hpattr] at hm
    have ha := hgood.1 m (mem_sortStrings.mp hm.1)
    have hb := hgood.2 m (mem_sortStrings.mp hm.2)
    rw [ha] at hb
    cases hb

/-- Witness for C3: the class body `x = 0` puts `x` in the public set
and not in the private set. -/
theorem c3_class_body_attr_partition_witness :
    "x" ∈ (processClassDef [Stmt.assign [Target.name "x"]]).attributes ∧
    "x" ∉ (processClassDef [Stmt.assign [Target.name "x"]]).private_attributes :=
  (c3_class_body_attr_partition [Stmt.assign [Target.name "x"]] "x"
    (Or.inl ⟨[Target.name "x"], List.mem_singleton.mpr rfl,
      List.mem_singleton.mpr rfl⟩)).1 (by decide)

/-! ### Dunder skipping -/

theorem foldl_ignore {σ : Type} (step : σ → Stmt → σ) (x : Stmt)
    (hx : ∀ s, step s x = s) (pre post : List Stmt) (s : σ) :
    (pre ++ x :: post).foldl step s = (pre ++ post).foldl step s := by
  rw [List.foldl_append, List.foldl_append, List.foldl_cons, hx]

theorem methodStep_no_new_dunder (st : MethodState) (s : Stmt) (k : String)
    (hk : isDunder k = true) :
    (k ∉ dictKeys st.methods → k ∉ dictKeys (methodStep st s).methods) ∧
      (k ∉ dictKeys st.private_methods →
        k ∉ dictKeys (methodStep st s).private_methods) := by
  cases s with
  | functionDef fname fargs fbody decs rets =>
    by_cases hd : isDunder fname = true
    · simp only [methodStep, hd, if_pos]
      exact ⟨fun h => h, fun h => h⟩
    · simp only [Bool.not_eq_true] at hd
      have hne : k ≠ fname := by
        intro he
        rw [he, hd] at hk
        cases hk
      simp only [methodStep, hd, Bool.false_eq_true, if_false]
      by_cases hp : isPrivate fname = true
      · simp only [hp, if_pos]
        by_cases hi : fname = "__init__"
        · simp only [hi, if_pos]
          exact ⟨fun h => h, fun h => not_mem_dictKeys_insertDict _ h (hi ▸ hne)⟩
        · simp only [hi, if_false]
          exact ⟨fun h => h, fun h => not_mem_dictKeys_insertDict _ h hne⟩
      · simp only [Bool.not_eq_true] at hp
        simp only [hp, Bool.false_eq_true, if_false]
        by_cases hi : fname = "__init__"
        · simp only [hi, if_pos]
          exact ⟨fun h => not_mem_dictKeys_insertDict _ h (hi ▸ hne), fun h => h⟩
        · simp only [hi, if_false]
          exact ⟨fun h => not_mem_dictKeys_insertDict _ h hne, fun h => h⟩
  | assign ts => exact ⟨fun h => h, fun h => h⟩
  | annAssign t => exact ⟨fun h => h, fun h => h⟩
  | classDef a b => exact ⟨fun h => h, fun h => h⟩
  | other a => exact ⟨fun h => h, fun h => h⟩

theorem pass2_no_dunder_keys (k : String) (hk : isDunder k = true) :
    ∀ (body : List Stmt) (st : MethodState),
      (k ∉ dictKeys st.methods → k ∉ dictKeys ((body.foldl methodStep st).methods)) ∧
        (k ∉ dictKeys st.private_methods →
          k ∉ dictKeys ((body.foldl methodStep st).private_methods)) := by
  intro body
  induction body with
  | nil => exact fun st => ⟨fun h => h, fun h => h⟩
  | cons s rest ih =>
    intro st
    refine ⟨fun h => ?_, fun h => ?_⟩
    · exact (ih (methodStep st s)).1 ((methodStep_no_new_dunder st s k hk).1 h)
    · exact (ih (methodStep st s)).2 ((methodStep_no_new_dunder st s k hk).2 h)

/-- C2: a dunder-named callable directly in a class body, other than the
canonical initializer, contributes nothing: the class record is the same
as for the body with that callable removed, and its name appears in
neither method map. -/
theorem c2_dunder_methods_excluded (pre post : List Stmt) (fname : String)
    (fargs : Arguments) (fbody : List Stmt) (decs : List (Option String))
    (rets : Option (Option String)) (h1 : isDunder fname = true)
    (h2 : fname ≠ "__init__") :
    processClassDef (pre ++ Stmt.functionDef fname fargs fbody decs rets :: post) =
      processClassDef (pre ++ post) ∧
    fname ∉ dictKeys
      (processClassDef (pre ++ Stmt.functionDef fname fargs fbody decs rets :: post)).methods ∧
    fname ∉ dictKeys
      (processClassDef
        (pre ++ Stmt.functionDef fname fargs fbody decs rets :: post)).private_methods := by
  have e1 : (pre ++ Stmt.functionDef fname fargs fbody decs rets :: post).foldl
      classBodyAttrStep { attributes := [], private_attributes := [] } =
      (pre ++ post).foldl classBodyAttrStep { attributes := [], private_attributes := [] } :=
    foldl_ignore classBodyAttrStep (Stmt.functionDef fname fargs fbody decs rets)
      (fun s => rfl) pre post _
  have e2 : ∀ st0 : MethodState,
      (pre ++ Stmt.functionDef fname fargs fbody decs rets :: post).foldl methodStep st0 =
        (pre ++ post).foldl methodStep st0 :=
    fun st0 => foldl_ignore methodStep _ (fun st => by simp [methodStep, h1]) pre post st0
  have heq : processClassDef (pre ++ Stmt.functionDef fname fargs fbody decs rets :: post) =
      processClassDef (pre ++ post) := by
    unfold processClassDef
    rw [e1]
    simp only [e2]
  refine ⟨heq, ?_, ?_⟩
  · have : (processClassDef
        (pre ++ Stmt.functionDef fname fargs fbody decs rets :: post)).methods =
        ((pre ++ Stmt.functionDef fname fargs fbody decs rets :: post).foldl methodStep
          ⟨(pre ++ Stmt.functionDef fname fargs fbody decs rets :: post).foldl
            classBodyAttrStep { attributes := [], private_attributes := [] },
            [], []⟩).methods := rfl
    rw [this]
    exact (pass2_no_dunder_keys fname h1 _ _).1 (by simp [dictKeys])
  · have : (processClassDef
        (pre ++ Stmt.functionDef fname fargs fbody decs rets :: post)).private_methods =
        ((pre ++ Stmt.functionDef fname fargs fbody decs rets :: post).foldl methodStep
          ⟨(pre ++ Stmt.functionDef fname fargs fbody decs rets :: post).foldl
            classBodyAttrStep { attributes := [], private_attributes := [] },
            [], []⟩).private_methods := rfl
    rw [this]
    exact (pass2_no_dunder_keys fname h1 _ _).2 (by simp [dictKeys])

/-- Witness for C2: a class with only `def __str__(self): ...` in its
body yields the same record as an empty class body, with `__str__`
absent from both method maps. -/
theorem c2_dunder_methods_excluded_witness :
    processClassDef [Stmt.functionDef "__str__" ⟨[], [⟨"self", none⟩], none, [], none⟩
        [] [] none] = processClassDef [] ∧
    "__str__" ∉ dictKeys (processClassDef
      [Stmt.functionDef "__str__" ⟨[], [⟨"self", none⟩], none, [], none⟩ [] [] none]).methods ∧
    "__str__" ∉ dictKeys (processClassDef
      [Stmt.functionDef "__str__" ⟨[], [⟨"self", none⟩], none, [], none⟩
        [] [] none]).private_methods :=
  c2_dunder_methods_excluded [] [] "__str__" ⟨[], [⟨"self", none⟩], none, [], none⟩
    [] [] none (by decide) (by decide)

/-! ### Nested class discovery (C6) -/

mutual

theorem visitStmt_keys_mono (s : Stmt) :
    ∀ (acc : ClassDict) (k : String), k ∈ dictKeys acc → k ∈ dictKeys (visitStmt acc s) :=
  match s with
  | .assign _ => fun _ _ h => h
  | .annAssign _ => fun _ _ h => h
  | .functionDef _ _ body _ _ => fun acc k h => visitStmts_keys_mono body acc k h
  | .classDef cname body => fun acc k h =>
      visitStmts_keys_mono body _ k
        (mem_dictKeys_insertDict_of_mem cname (processClassDef body) h)
  | .other children => fun acc k h => visitStmts_keys_mono children acc k h

theorem visitStmts_keys_mono (l : List Stmt) :
    ∀ (acc : ClassDict) (k : String), k ∈ dictKeys acc → k ∈ dictKeys (visitStmts acc l) :=
  match l with
  | [] => fun _ _ h => h
  | s :: rest => fun acc k h =>
      visitStmts_keys_mono rest (visitStmt acc s) k (visitStmt_keys_mono s acc k h)

end

mutual

theorem visitStmt_keys_complete (s : Stmt) :
    ∀ (acc : ClassDict) (k : String), k ∈ classNamesOfStmt s →
      k ∈ dictKeys (visitStmt acc s) :=
  match s with
  | .assign _ => fun _ _ h => absurd h (List.not_mem_nil _)
  | .annAssign _ => fun _ _ h => absurd h (List.not_mem_nil _)
  | .functionDef _ _ body _ _ => fun acc k h => visitStmts_keys_complete body acc k h
  | .classDef cname body => fun acc k h => by
      rcases List.mem_cons.mp h with h2 | h2
      · subst h2
        exact visitStmts_keys_mono body _ k
          (mem_dictKeys_insertDict_self acc k (processClassDef body))
      · exact visitStmts_keys_complete body _ k h2
  | .other children => fun acc k h => visitStmts_keys_complete children acc k h

theorem visitStmts_keys_complete (l : List Stmt) :
    ∀ (acc : ClassDict) (k : String), k ∈ classNamesOfList l →
      k ∈ dictKeys (visitStmts acc l) :=
  match l with
  | [] => fun _ _ h => absurd h (List.not_mem_nil _)
  | s :: rest => fun acc k h => by
      rcases List.mem_append.mp h with h2 | h2
      · exact visitStmts_keys_mono rest (visitStmt acc s) k
          (visitStmt_keys_complete s acc k h2)
      · exact visitStmts_keys_complete rest (visitStmt acc s) k h2

end

/-- C6: every class-definition node at any nesting depth reachable from
the module root (inside functions, other statements, or other classes)
is found by the visitor and yields an entry under its name in the
resulting class mapping. -/
theorem c6_nested_classes_found (moduleBody : List Stmt) (n : String)
    (h : n ∈ classNamesOfList moduleBody) : n ∈ dictKeys (umlParse moduleBody) :=
  visitStmts_keys_complete moduleBody [] n h

/-- Witness for C6: a class nested inside a function body and one nested
inside another statement are both discovered. -/
theorem c6_nested_classes_found_witness :
    "Inner" ∈ dictKeys (umlParse
      [Stmt.functionDef "f" ⟨[], [], none, [], none⟩ [Stmt.classDef "Inner" []] [] none,
        Stmt.other [Stmt.classDef "Deep" []]]) ∧
    "Deep" ∈ dictKeys (umlParse
      [Stmt.functionDef "f" ⟨[], [], none, [], none⟩ [Stmt.classDef "Inner" []] [] none,
        Stmt.other [Stmt.classDef "Deep" []]]) :=
  ⟨c6_nested_classes_found _ "Inner" (by decide),
    c6_nested_classes_found _ "Deep" (by decide)⟩

/-! ### Duplicate class names (C5) -/

theorem lookupDict_none_of_not_any {β : Type} (k : String) :
    ∀ d : List (String × β), d.any (fun p => p.1 = k) = false →
      lookupDict d k = none := by
  intro d
  induction d with
  | nil => intro _; rfl
  | cons q rest ih =>
    intro h
    rw [List.any_cons] at h
    rcases Bool.or_eq_false_iff.mp h with ⟨h1, h2⟩
    unfold lookupDict
    rw [List.find?_cons_of_neg _ (by simpa using h1)]
    exact ih h2

theorem lookupDict_append_single {β : Type} (k : String) (v : β) :
    ∀ d : List (String × β), d.any (fun p => p.1 = k) = false →
      lookupDict (d ++ [(k, v)]) k = some v := by
  intro d
  induction d with
  | nil =>
    intro _
    unfold lookupDict
    rw [List.nil_append, List.find?_cons_of_pos _ (by simp)]
    rfl
  | cons q rest ih =>
    intro h
    rw [List.any_cons] at h
    rcases Bool.or_eq_false_iff.mp h with ⟨h1, h2⟩
    unfold lookupDict
    rw [List.cons_append, List.find?_cons_of_neg _ (by simpa using h1)]
    exact ih h2

theorem lookupDict_update (k : String) (es : List ClassEntry) :
    ∀ d : PkgDict, d.any (fun p => p.1 = k) = true →
      lookupDict (d.map (fun p => if p.1 = k then (p.1, p.2 ++ es) else p)) k =
        some ((lookupDict d k).getD [] ++ es) := by
  intro d
  induction d with
  | nil => intro h; cases h
  | cons q rest ih =>
    intro h
    by_cases hq : q.1 = k
    · unfold lookupDict
      rw [List.map_cons, if_pos hq]
      rw [List.find?_cons_of_pos _ (by simpa using hq),
        List.find?_cons_of_pos _ (by simpa using hq)]
      simp
    · unfold lookupDict
      rw [List.map_cons, if_neg hq]
      rw [List.find?_cons_of_neg _ (by simpa using hq),
        List.find?_cons_of_neg _ (by simpa using hq)]
      rw [List.any_cons] at h
      rcases Bool.or_eq_true_iff.mp h with h1 | h1
      · exact absurd (by simpa using h1) hq
      · exact ih h1

theorem lookupDict_appendEntries (pkgs : PkgDict) (pkg : String) (es : List ClassEntry) :
    lookupDict (appendEntries pkgs pkg es) pkg =
      some ((lookupDict pkgs pkg).getD [] ++ es) := by
  unfold appendEntries
  by_cases h : pkgs.any (fun p => p.1 = pkg) = true
  · rw [if_pos h]
    exact lookupDict_update pkg es pkgs h
  · have h2 : pkgs.any (fun p => p.1 = pkg) = false := by
      cases h3 : pkgs.any (fun p => p.1 = pkg)
      · rfl
      · exact absurd h3 h
    rw [if_neg h]
    rw [lookupDict_none_of_not_any pkg pkgs h2]
    rw [lookupDict_append_single pkg es pkgs h2]
    rfl

theorem lookupDict_insertDict_mem {β : Type} (k : String) (v : β) :
    ∀ d : List (String × β), k ∈ dictKeys d →
      lookupDict (insertDict d k v) k = some v := by
  intro d
  induction d with
  | nil => intro h; cases h
  | cons q rest ih =>
    intro h
    unfold insertDict
    rw [if_pos ((mem_dictKeys_iff_any _ k).mpr h)]
    by_cases hq : q.1 = k
    · unfold lookupDict
      rw [List.map_cons, if_pos hq]
      rw [List.find?_cons_of_pos _ (by simp)]
      rfl
    · unfold lookupDict
      rw [List.map_cons, if_neg hq]
      rw [List.find?_cons_of_neg _ (by simpa using hq)]
      have h2 : k ∈ dictKeys rest := by
        rcases List.mem_cons.mp h with h3 | h3
        · exact absurd h3.symm hq
        · exact h3
      have := ih h2
      unfold insertDict at this
      rw [if_pos ((mem_dictKeys_iff_any _ k).mpr h2)] at this
      exact this

/-- Counterexample to C5: a file whose module body defines the class
`A` twice leaves a single entry in the extractor mapping (the later,
empty definition), so the two same-named definitions in one file do not
both survive. -/
theorem c5_same_file_duplicate_counterexample :
    (umlParse [Stmt.classDef "A" [Stmt.assign [Target.name "x"]],
      Stmt.classDef "A" []]).length = 1 ∧
    umlParse [Stmt.classDef "A" [Stmt.assign [Target.name "x"]], Stmt.classDef "A" []] =
      [("A", ⟨[], [], [], []⟩)] := by
  constructor
  · decide
  · decide

/-- C5 amended: the per-file extractor mapping is keyed by class name,
so a later definition with the same name in one file overwrites the
earlier entry (one entry remains, keys and size unchanged); across
files the aggregator never merges: the classes of a new file are appended to
its package list as one fresh entry per discovered class, even when an
entry with the same class name is already present. -/
theorem c5_amended_no_merge_across_files (files : List PFile) (f : PFile)
    (hnonempty : (parse_python_file f.path f.parsed).1.isEmpty = false) :
    lookupDict (parse_directory (files ++ [f])).1 f.package =
      some ((lookupDict (parse_directory files).1 f.package).getD [] ++
        entriesOfClasses f.module (parse_python_file f.path f.parsed).1) ∧
    (entriesOfClasses f.module (parse_python_file f.path f.parsed).1).length =
      (parse_python_file f.path f.parsed).1.length ∧
    (∀ (d : ClassDict) (k : String) (v : ClassData), k ∈ dictKeys d →
      (insertDict d k v).length = d.length ∧
        dictKeys (insertDict d k v) = dictKeys d ∧
        lookupDict (insertDict d k v) k = some v) := by
  refine ⟨?_, ?_, ?_⟩
  · unfold parse_directory
    rw [List.foldl_append, List.foldl_cons, List.foldl_nil]
    have hstep : parse_directory_step (files.foldl parse_directory_step ([], [])) f =
        (appendEntries (files.foldl parse_directory_step ([], [])).1 f.package
            (entriesOfClasses f.module (parse_python_file f.path f.parsed).1),
          (files.foldl parse_directory_step ([], [])).2 ++
            (parse_python_file f.path f.parsed).2) := by
      simp [parse_directory_step, hnonempty]
    rw [hstep]
    exact lookupDict_appendEntries _ f.package _
  · unfold entriesOfClasses
    rw [List.length_map]
  · intro d k v hk
    refine ⟨?_, ?_, lookupDict_insertDict_mem k v d hk⟩
    · unfold insertDict
      rw [if_pos ((mem_dictKeys_iff_any d k).mpr hk), List.length_map]
    · rw [dictKeys_insertDict, if_pos hk]

/-- Witness for C5: one file defining class `A` appended to an empty
walk contributes exactly its own entry list for its package. -/
theorem c5_amended_no_merge_across_files_witness :
    lookupDict (parse_directory
        ([] ++ [⟨"p.py", "root", "p", Except.ok [Stmt.classDef "A" []]⟩])).1 "root" =
      some ((lookupDict (parse_directory []).1 "root").getD [] ++
        entriesOfClasses "p"
          (parse_python_file "p.py" (Except.ok [Stmt.classDef "A" []])).1) :=
  (c5_amended_no_merge_across_files []
    ⟨"p.py", "root", "p", Except.ok [Stmt.classDef "A" []]⟩ (by decide)).1

/-! ### Parse-failure isolation (C7) -/

theorem parse_directory_split :
    ∀ (files : List PFile) (pkgs : PkgDict) (errs : List String),
      files.foldl parse_directory_step (pkgs, errs) =
        ((files.foldl parse_directory_step (pkgs, [])).1,
          errs ++ (files.foldl parse_directory_step (pkgs, [])).2) := by
  intro files
  induction files with
  | nil =>
    intro pkgs errs
    simp
  | cons f rest ih =>
    intro pkgs errs
    rw [List.foldl_cons, List.foldl_cons]
    rw [show parse_directory_step (pkgs, errs) f =
        ((parse_directory_step (pkgs, []) f).1,
          errs ++ (parse_directory_step (pkgs, []) f).2) from rfl]
    rw [ih ((parse_directory_step (pkgs, []) f).1)
        (errs ++ (parse_directory_step (pkgs, []) f).2),
      ih ((parse_directory_step (pkgs, []) f).1) ((parse_directory_step (pkgs, []) f).2)]
    rw [List.append_assoc]

theorem parse_directory_module_functions_split :
    ∀ (files : List PFile) (mods : ModDict) (errs : List String),
      files.foldl parse_directory_module_functions_step (mods, errs) =
        ((files.foldl parse_directory_module_functions_step (mods, [])).1,
          errs ++ (files.foldl parse_directory_module_functions_step (mods, [])).2) := by
  intro files
  induction files with
  | nil =>
    intro mods errs
    simp
  | cons f rest ih =>
    intro mods errs
    rw [List.foldl_cons, List.foldl_cons]
    rw [show parse_directory_module_functions_step (mods, errs) f =
        ((parse_directory_module_functions_step (mods, []) f).1,
          errs ++ (parse_directory_module_functions_step (mods, []) f).2) from rfl]
    rw [ih ((parse_directory_module_functions_step (mods, []) f).1)
        (errs ++ (parse_directory_module_functions_step (mods, []) f).2),
      ih ((parse_directory_module_functions_step (mods, []) f).1)
        ((parse_directory_module_functions_step (mods, []) f).2)]
    rw [List.append_assoc]

/-- C7: a file whose text fails to parse contributes zero records to
both the class and the module-function extraction, the failure is
reported with the offending path, and the aggregates over the remaining
files are exactly what they would be without that file. -/
theorem c7_parse_failure_isolated (pre post : List PFile) (f : PFile) (e : String)
    (hf : f.parsed = Except.error e) :
    (parse_directory (pre ++ f :: post)).1 = (parse_directory (pre ++ post)).1 ∧
    ("Error parsing " ++ f.path ++ ": " ++ e) ∈ (parse_directory (pre ++ f :: post)).2 ∧
    (parse_directory_module_functions (pre ++ f :: post)).1 =
      (parse_directory_module_functions (pre ++ post)).1 ∧
    ("Error parsing " ++ f.path ++ ": " ++ e) ∈
      (parse_directory_module_functions (pre ++ f :: post)).2 ∧
    (parse_python_file f.path f.parsed).1 = [] ∧
    (parse_module_functions f.path f.parsed).1 = [] := by
  have hpy : parse_python_file f.path f.parsed =
      ([], ["Error parsing " ++ f.path ++ ": " ++ e]) := by
    rw [hf]
    rfl
  have hmod : parse_module_functions f.path f.parsed =
      ([], ["Error parsing " ++ f.path ++ ": " ++ e]) := by
    rw [hf]
    rfl
  have hstep1 : ∀ acc : PkgDict × List String, parse_directory_step acc f =
      (acc.1, acc.2 ++ ["Error parsing " ++ f.path ++ ": " ++ e]) := by
    intro acc
    simp [parse_directory_step, hpy]
  have hstep2 : ∀ acc : ModDict × List String,
      parse_directory_module_functions_step acc f =
        (acc.1, acc.2 ++ ["Error parsing " ++ f.path ++ ": " ++ e]) := by
    intro acc
    simp [parse_directory_module_functions_step, hmod]
  refine ⟨?_, ?_, ?_, ?_, by rw [hpy], by rw [hmod]⟩
  · unfold parse_directory
    rw [List.foldl_append, List.foldl_append, List.foldl_cons, hstep1]
    have key : (List.foldl parse_directory_step
        ((List.foldl parse_directory_step ([], []) pre).1,
          (List.foldl parse_directory_step ([], []) pre).2 ++
            ["Error parsing " ++ f.path ++ ": " ++ e]) post).1 =
        (List.foldl parse_directory_step
          ((List.foldl parse_directory_step ([], []) pre).1,
            (List.foldl parse_directory_step ([], []) pre).2) post).1 := by
      rw [parse_directory_split post ((List.foldl parse_directory_step ([], []) pre).1)
          ((List.foldl parse_directory_step ([], []) pre).2 ++
            ["Error parsing " ++ f.path ++ ": " ++ e]),
        parse_directory_split post ((List.foldl parse_directory_step ([], []) pre).1)
          ((List.foldl parse_directory_step ([], []) pre).2)]
    exact key
  · unfold parse_directory
    rw [List.foldl_append, List.foldl_cons, hstep1]
    rw [parse_directory_split post ((List.foldl parse_directory_step ([], []) pre).1)
      ((List.foldl parse_directory_step ([], []) pre).2 ++
        ["Error parsing " ++ f.path ++ ": " ++ e])]
    refine List.mem_append_left _ (List.mem_append_right _ ?_)
    exact List.mem_singleton.mpr rfl
  · unfold parse_directory_module_functions
    rw [List.foldl_append, List.foldl_append, List.foldl_cons, hstep2]
    have key : (List.foldl parse_directory_module_functions_step
        ((List.foldl parse_directory_module_functions_step ([], []) pre).1,
          (List.foldl parse_directory_module_functions_step ([], []) pre).2 ++
            ["Error parsing " ++ f.path ++ ": " ++ e]) post).1 =
        (List.foldl parse_directory_module_functions_step
          ((List.foldl parse_directory_module_functions_step ([], []) pre).1,
            (List.foldl parse_directory_module_functions_step ([], []) pre).2) post).1 := by
      rw [parse_directory_module_functions_split post
          ((List.foldl parse_directory_module_functions_step ([], []) pre).1)
          ((List.foldl parse_directory_module_functions_step ([], []) pre).2 ++
            ["Error parsing " ++ f.path ++ ": " ++ e]),
        parse_directory_module_functions_split post
          ((List.foldl parse_directory_module_functions_step ([], []) pre).1)
          ((List.foldl parse_directory_module_functions_step ([], []) pre).2)]
    exact key
  · unfold parse_directory_module_functions
    rw [List.foldl_append, List.foldl_cons, hstep2]
    rw [parse_directory_module_functions_split post
      ((List.foldl parse_directory_module_functions_step ([], []) pre).1)
      ((List.foldl parse_directory_module_functions_step ([], []) pre).2 ++
        ["Error parsing " ++ f.path ++ ": " ++ e])]
    refine List.mem_append_left _ (List.mem_append_right _ ?_)
    exact List.mem_singleton.mpr rfl

/-- Witness for C7: a failing file between two parsable files leaves
the package aggregate exactly as without it, and its error line is
reported. -/
theorem c7_parse_failure_isolated_witness :
    (parse_directory ([⟨"a.py", "root", "a", Except.ok [Stmt.classDef "A" []]⟩] ++
        ⟨"bad.py", "root", "bad", Except.error "invalid syntax"⟩ ::
        [⟨"b.py", "root", "b", Except.ok [Stmt.classDef "B" []]⟩])).1 =
      (parse_directory ([⟨"a.py", "root", "a", Except.ok [Stmt.classDef "A" []]⟩] ++
        [⟨"b.py", "root", "b", Except.ok [Stmt.classDef "B" []]⟩])).1 ∧
    ("Error parsing " ++ "bad.py" ++ ": " ++ "invalid syntax") ∈
      (parse_directory ([⟨"a.py", "root", "a", Except.ok [Stmt.classDef "A" []]⟩] ++
        ⟨"bad.py", "root", "bad", Except.error "invalid syntax"⟩ ::
        [⟨"b.py", "root", "b", Except.ok [Stmt.classDef "B" []]⟩])).2 := by
  have h := c7_parse_failure_isolated
    [⟨"a.py", "root", "a", Except.ok [Stmt.classDef "A" []]⟩]
    [⟨"b.py", "root", "b", Except.ok [Stmt.classDef "B" []]⟩]
    ⟨"bad.py", "root", "bad", Except.error "invalid syntax"⟩ "invalid syntax" rfl
  exact ⟨h.1, h.2.1⟩

end BuildUml
